import Mathlib

/-!
# Pico_Testing: the blink loop and the threshold sensor notifier

A shallow embedding of `src/my_project/my_code.c` and `src/pico_sensor_bt/main.c`.

* Globals of `main.c` become the fields of `State`; every function that touches
  them takes the state and returns the new state together with the list of
  external calls it made, in program order.
* `float` values are modelled exactly: a finite non-negative binary32 value is a
  natural number counted in units of `2^-34`, and every operation that rounds in
  C rounds here to 24 significant bits, to nearest, ties to even (IEEE 754 binary32
  in the default rounding mode, expressions evaluated in `float`).
* Packets given to `rfcomm_packet_handler` are modelled by what the BTstack getters
  read out of them (packet type, event type, status, channel id). The `uint16_t` and
  `uint8_t` values involved (`adc_raw`, channel ids, status) are natural numbers; the
  program does no arithmetic on them apart from the conversion of `adc_raw`.
* `btstack_run_loop_execute()` is taken, as the comment at its call says, to process
  the pending events and return: one call hands a finite list of packets to the
  registered RFCOMM handler. The HCI handler `packet_handler` reads and writes none of
  the three variables and makes no RFCOMM call; it is left out.
-/

namespace PicoSensor

/-! ## Single-precision arithmetic -/

/-- Number of halvings needed to bring `p` below `2^24`. The first argument bounds the
recursion; `p` itself is always enough. -/
def sigShift : Nat → Nat → Nat
  | 0, _ => 0
  | fuel + 1, p => if p < 2 ^ 24 then 0 else sigShift fuel (p / 2) + 1

/-- Round a non-negative integer (a count of some fixed power-of-two unit) to the
nearest value with at most 24 significant bits, ties to even: the binary32 rounding of
every arithmetic result in the normal range. -/
def roundF32 (p : Nat) : Nat :=
  let k := sigShift p p
  let q := p / 2 ^ k
  let r := p % 2 ^ k
  let q1 := if 2 ^ k < 2 * r ∨ (2 * r = 2 ^ k ∧ q % 2 = 1) then q + 1 else q
  q1 * 2 ^ k

/-- Nearest integer to `num / den`, ties to even. -/
def nearestEven (num den : Nat) : Nat :=
  let q := num / den
  let r := num % den
  if den < 2 * r ∨ (2 * r = den ∧ q % 2 = 1) then q + 1 else q

/-- The literal `3.3f` in units of `2^-22` (it lies in `[2, 4)`, where binary32 values
are the multiples of `2^-22`). -/
def f32_3_3 : Nat := nearestEven (33 * 2 ^ 22) 10

/-- `#define ADC_CONVERSION_FACTOR (3.3f / (1 << 12))` in units of `2^-34`: dividing
by `4096 = 2^12` only lowers the exponent, so the mantissa is that of `3.3f`. -/
def ADC_CONVERSION_FACTOR : Nat := f32_3_3

/-- `#define THRESHOLD_VOLTAGE 1.0f` in units of `2^-34`. -/
def THRESHOLD_VOLTAGE : Nat := 2 ^ 34

/-- `float voltage = adc_raw * ADC_CONVERSION_FACTOR;` in units of `2^-34`. The
`uint16_t` sample converts to `float` exactly; the product is rounded. -/
def voltage (adc_raw : Nat) : Nat := roundF32 (adc_raw * ADC_CONVERSION_FACTOR)

/-- `bool sensor_triggered = voltage >= THRESHOLD_VOLTAGE;` -/
def sensor_triggered (adc_raw : Nat) : Bool := decide (THRESHOLD_VOLTAGE ≤ voltage adc_raw)

/-! ## The notifier: state, packets, external calls -/

/-- The file-scope variables of `main.c` that the program reads back. -/
structure State where
  /-- Holds `static uint16_t rfcomm_channel_id`. -/
  rfcomm_channel_id : Nat
  /-- Holds `static bool bluetooth_connected`. -/
  bluetooth_connected : Bool
  /-- Holds `static bool last_sensor_state`. -/
  last_sensor_state : Bool
  deriving DecidableEq

/-- The initialisers of the three variables. -/
def State.initial : State :=
  { rfcomm_channel_id := 0, bluetooth_connected := false, last_sensor_state := false }

/-- What `rfcomm_packet_handler` reads from an `HCI_EVENT_PACKET` through
`hci_event_packet_get_type` and the per-event getters. -/
inductive RfcommEvent where
  /-- An `RFCOMM_EVENT_INCOMING_CONNECTION` carrying `rfcomm_cid`. -/
  | incoming_connection (rfcomm_cid : Nat)
  /-- An `RFCOMM_EVENT_CHANNEL_OPENED` carrying `status` and `rfcomm_cid`. -/
  | channel_opened (status : Nat) (rfcomm_cid : Nat)
  /-- An `RFCOMM_EVENT_CHANNEL_CLOSED`. -/
  | channel_closed
  /-- Any other event type (the inner `default:`). -/
  | other_event
  deriving DecidableEq

/-- A packet as `rfcomm_packet_handler` sees it. -/
inductive Packet where
  /-- Packet type `HCI_EVENT_PACKET`. -/
  | hci_event (e : RfcommEvent)
  /-- Any other packet type (the outer `default:`). -/
  | other_packet
  deriving DecidableEq

/-- Calls into the SDK and BTstack, recorded in program order. `printf` keeps its
format string only. -/
inductive Call where
  | stdio_init_all
  | printf (fmt : String)
  | cyw43_arch_init
  | adc_init
  | adc_gpio_init (pin : Nat)
  | adc_select_input (input : Nat)
  | l2cap_init
  | rfcomm_init
  | hci_add_event_handler
  | rfcomm_register_service (channel_nr : Nat) (max_frame_size : Nat)
  | hci_power_control_on
  | adc_read
  | rfcomm_accept_connection (rfcomm_cid : Nat)
  | rfcomm_send (rfcomm_cid : Nat) (data : List Nat)
  /-- The call `cyw43_arch_gpio_put(CYW43_WL_GPIO_LED_PIN, value)`. -/
  | led_put (value : Bool)
  | btstack_run_loop_execute
  | sleep_ms (ms : Nat)
  deriving DecidableEq

/-- `#define PIN_ADC 26` -/
def PIN_ADC : Nat := 26

/-- `static uint8_t rfcomm_channel_nr = 1;` (never written). -/
def rfcomm_channel_nr : Nat := 1

/-- `static void rfcomm_packet_handler(packet_type, channel, packet, size)`. -/
def rfcomm_packet_handler (st : State) (pkt : Packet) : State × List Call :=
  match pkt with
  | .hci_event e =>
    match e with
    | .incoming_connection cid =>
      ({ st with rfcomm_channel_id := cid },
        [.printf "RFCOMM channel %u requested for %s\n", .rfcomm_accept_connection cid])
    | .channel_opened status cid =>
      if status ≠ 0 then
        ({ st with rfcomm_channel_id := 0 },
          [.printf "RFCOMM channel open failed, status 0x%02x\n"])
      else
        ({ st with rfcomm_channel_id := cid, bluetooth_connected := true },
          [.printf "RFCOMM channel open succeeded. Channel ID %u\n"])
    | .channel_closed =>
      ({ st with rfcomm_channel_id := 0, bluetooth_connected := false },
        [.printf "RFCOMM channel closed\n"])
    | .other_event => (st, [])
  | .other_packet => (st, [])

/-- `void send_sensor_data(bool sensor_triggered)`; it writes no variable. -/
def send_sensor_data (st : State) (triggered : Bool) : List Call :=
  if st.bluetooth_connected && (st.rfcomm_channel_id != 0) then
    [.rfcomm_send st.rfcomm_channel_id [if triggered then 1 else 0],
      .led_put triggered,
      .printf "Sent: %s\n"]
  else []

/-- Lines 154 to 162 of `main.c`: read the ADC, classify, notify on a change. -/
def poll_sensor (st : State) (adc_raw : Nat) : State × List Call :=
  let triggered := sensor_triggered adc_raw
  if triggered != st.last_sensor_state then
    ({ st with last_sensor_state := triggered }, .adc_read :: send_sensor_data st triggered)
  else (st, [.adc_read])

/-- The packets BTstack hands to the registered RFCOMM handler during one call of
`btstack_run_loop_execute()`, in order. -/
def deliver (st : State) : List Packet → State × List Call
  | [] => (st, [])
  | pkt :: rest =>
    let r := rfcomm_packet_handler st pkt
    let r2 := deliver r.1 rest
    (r2.1, r.2 ++ r2.2)

/-- One pass through the body of `while (true)`: the sample returned by `adc_read()`
and the packets dispatched inside `btstack_run_loop_execute()`. -/
def loop_body (st : State) (tick : Nat × List Packet) : State × List Call :=
  let r := poll_sensor st tick.1
  let r2 := deliver r.1 tick.2
  (r2.1, r.2 ++ .btstack_run_loop_execute :: r2.2 ++ [.sleep_ms 5])

/-- The first `ticks.length` passes of the polling loop. -/
def main_loop (st : State) : List (Nat × List Packet) → State × List Call
  | [] => (st, [])
  | tick :: rest =>
    let r := loop_body st tick
    let r2 := main_loop r.1 rest
    (r2.1, r.2 ++ r2.2)

/-- `int main()` of `main.c`, run on the return code of `cyw43_arch_init()` and on a
finite run of the polling loop. The first component is the value returned, `none`
while the loop is still running. -/
def main (cyw43_rc : Int) (ticks : List (Nat × List Packet)) : Option Int × List Call :=
  let start : List Call :=
    [.stdio_init_all, .printf "Pico W Bluetooth Sensor Starting...\n", .cyw43_arch_init]
  if cyw43_rc ≠ 0 then
    (some (-1), start ++ [.printf "Failed to initialize cyw43_arch\n"])
  else
    (none, start ++
      [.adc_init, .adc_gpio_init PIN_ADC, .adc_select_input 0,
        .printf "Initializing Bluetooth...\n",
        .l2cap_init, .rfcomm_init, .hci_add_event_handler,
        .rfcomm_register_service rfcomm_channel_nr 0xffff,
        .hci_power_control_on,
        .printf "Bluetooth initialized. Device name: PicoW-Sensor\n",
        .printf "Threshold voltage: %.2fV\n"] ++
      (main_loop State.initial ticks).2)

/-- The payload bytes handed to `rfcomm_send`, in order. -/
def sent_bytes : List Call → List Nat
  | [] => []
  | .rfcomm_send _ data :: rest => data ++ sent_bytes rest
  | _ :: rest => sent_bytes rest

/-- The number of `rfcomm_send` calls. -/
def send_count : List Call → Nat
  | [] => 0
  | .rfcomm_send _ _ :: rest => send_count rest + 1
  | _ :: rest => send_count rest

/-- The channel ids passed to `rfcomm_accept_connection`, in order. -/
def accepted : List Call → List Nat
  | [] => []
  | .rfcomm_accept_connection cid :: rest => cid :: accepted rest
  | _ :: rest => accepted rest

/-- The `rfcomm_send` calls as `(channel id, payload)`, in order. -/
def sends : List Call → List (Nat × List Nat)
  | [] => []
  | .rfcomm_send cid data :: rest => (cid, data) :: sends rest
  | _ :: rest => sends rest

/-! ## What the specification expects of the notifier -/

/-- The classification before tick `i`: `false` before the first tick. -/
def prev_class (cs : List Bool) (i : Nat) : Bool :=
  if i = 0 then false else cs.getD (i - 1) false

/-- The ticks whose classification differs from that of the tick before. -/
def change_indices (cs : List Bool) : List Nat :=
  (List.range cs.length).filter (fun i => cs.getD i false != prev_class cs i)

/-- One payload byte per change: `1` for triggered, `0` for normal. -/
def expected_bytes (cs : List Bool) : List Nat :=
  (change_indices cs).map (fun i => if cs.getD i false then 1 else 0)

/-- The classifications of the samples of a run. -/
def classes (ticks : List (Nat × List Packet)) : List Bool :=
  ticks.map (fun t => sensor_triggered t.1)

/-- The link is usable: the test of `send_sensor_data` succeeds. -/
def link_up (st : State) : Bool :=
  st.bluetooth_connected && (st.rfcomm_channel_id != 0)

/-- Packets after which a usable link is still usable. -/
def keeps_link : Packet → Bool
  | .hci_event (.incoming_connection cid) => cid != 0
  | .hci_event (.channel_opened status cid) => status == 0 && cid != 0
  | .hci_event .channel_closed => false
  | .hci_event .other_event => true
  | .other_packet => true

/-- A channel-opened event with status 0. -/
def is_open_ok : Packet → Bool
  | .hci_event (.channel_opened status _) => status == 0
  | _ => false

/-- The payloads of the changes of a classification sequence, by recursion from the
classification in force before it. -/
def edge_bytes (prev : Bool) : List Bool → List Nat
  | [] => []
  | c :: cs => if c != prev then (if c then 1 else 0) :: edge_bytes c cs else edge_bytes c cs

end PicoSensor

namespace Blink

/-! ## The blink program -/

/-- Calls into the SDK made by `my_code.c`. -/
inductive PinCall where
  | gpio_init (pin : Nat)
  | gpio_set_dir (pin : Nat) (out : Bool)
  | gpio_put (pin : Nat) (value : Nat)
  | sleep_ms (ms : Nat)
  deriving DecidableEq

/-- `const uint LED_PIN = 25;` -/
def LED_PIN : Nat := 25

/-- The body of `while (true)`. -/
def pass_calls : List PinCall :=
  [.gpio_put LED_PIN 1, .sleep_ms 500, .gpio_put LED_PIN 0, .sleep_ms 500]

/-- The first `n` passes of the loop. -/
def loop : Nat → List PinCall
  | 0 => []
  | n + 1 => pass_calls ++ loop n

/-- `int main()` of `my_code.c` up to the end of pass `n`. The macro `LED_BUILTIN` is
not defined in the repository and is taken as a parameter. -/
def main (LED_BUILTIN : Nat) (n : Nat) : List PinCall :=
  [.gpio_init LED_BUILTIN, .gpio_set_dir LED_BUILTIN true] ++ loop n

/-- The writes to the pin as `(time in ms, level)`, where the time of a call is the sum
of the sleeps before it, starting from `t`. -/
def pin_writes (t : Nat) : List PinCall → List (Nat × Nat)
  | [] => []
  | .gpio_put _ v :: rest => (t, v) :: pin_writes t rest
  | .sleep_ms ms :: rest => pin_writes (t + ms) rest
  | _ :: rest => pin_writes t rest

/-- The milliseconds slept in a list of calls. -/
def total_sleep : List PinCall → Nat
  | [] => 0
  | .sleep_ms ms :: rest => ms + total_sleep rest
  | _ :: rest => total_sleep rest

/-- The level the specification gives to write number `n`. -/
def expected_level (n : Nat) : Nat := if n % 2 = 0 then 1 else 0

end Blink

namespace PicoSensor

/-! ## Lemmas on rounding -/

theorem f32_3_3_eq : f32_3_3 = 13841203 := by decide

theorem sigShift_spec (fuel : Nat) : ∀ p, p < 2 ^ fuel →
    p / 2 ^ sigShift fuel p < 2 ^ 24 ∧
      (0 < sigShift fuel p → 2 ^ 23 ≤ p / 2 ^ sigShift fuel p) := by
  induction fuel with
  | zero =>
    intro p hp
    simp only [sigShift, pow_zero, Nat.div_one]
    omega
  | succ n ih =>
    intro p hp
    unfold sigShift
    split
    · rename_i h
      simp only [pow_zero, Nat.div_one]
      exact ⟨h, fun h0 => absurd h0 (by omega)⟩
    · rename_i h
      have hp2 : p / 2 < 2 ^ n := by
        rw [pow_succ] at hp
        omega
      obtain ⟨h1, h2⟩ := ih (p / 2) hp2
      have e : p / 2 ^ (sigShift n (p / 2) + 1) = p / 2 / 2 ^ sigShift n (p / 2) := by
        rw [pow_succ, Nat.mul_comm, Nat.div_div_eq_div_mul]
      rw [e]
      refine ⟨h1, fun _ => ?_⟩
      by_cases hk : 0 < sigShift n (p / 2)
      · exact h2 hk
      · have hz : sigShift n (p / 2) = 0 := by omega
        rw [hz, pow_zero, Nat.div_one]
        have : 2 ^ 24 ≤ p := by omega
        omega

theorem sigShift_self (p : Nat) :
    p / 2 ^ sigShift p p < 2 ^ 24 ∧ (0 < sigShift p p → 2 ^ 23 ≤ p / 2 ^ sigShift p p) :=
  sigShift_spec p p (Nat.lt_two_pow p)

theorem roundF32_lower (p : Nat) : p / 2 ^ sigShift p p * 2 ^ sigShift p p ≤ roundF32 p := by
  unfold roundF32
  simp only
  split
  · exact Nat.mul_le_mul_right _ (Nat.le_succ _)
  · exact Nat.le_refl _

theorem roundF32_upper (p : Nat) : roundF32 p ≤ p + 2 ^ sigShift p p := by
  unfold roundF32
  simp only
  have hdm : p / 2 ^ sigShift p p * 2 ^ sigShift p p ≤ p := Nat.div_mul_le_self _ _
  split
  · rw [Nat.add_mul, Nat.one_mul]
    omega
  · omega

/-- Rounding never takes a value at or above one below one. -/
theorem roundF32_ge_one (p : Nat) (hp : 2 ^ 34 ≤ p) : 2 ^ 34 ≤ roundF32 p := by
  obtain ⟨h1, h2⟩ := sigShift_self p
  have hk : 11 ≤ sigShift p p := by
    by_contra hlt
    have hle : sigShift p p ≤ 10 := by omega
    have hpow : 2 ^ sigShift p p ≤ 2 ^ 10 := Nat.pow_le_pow_right (by decide) hle
    have hdiv : p / 2 ^ 10 ≤ p / 2 ^ sigShift p p :=
      Nat.div_le_div_left hpow (Nat.pos_pow_of_pos _ (by decide))
    have : 2 ^ 24 ≤ p / 2 ^ 10 := by omega
    omega
  have hq : 2 ^ 23 ≤ p / 2 ^ sigShift p p := h2 (by omega)
  have hpow : 2 ^ 11 ≤ 2 ^ sigShift p p := Nat.pow_le_pow_right (by decide) hk
  calc 2 ^ 34 = 2 ^ 23 * 2 ^ 11 := by norm_num
    _ ≤ p / 2 ^ sigShift p p * 2 ^ sigShift p p := Nat.mul_le_mul hq hpow
    _ ≤ roundF32 p := roundF32_lower p

/-- Below one, rounding moves a value by at most `2^10` units. -/
theorem roundF32_le_add (p : Nat) (hp : p < 2 ^ 34) : roundF32 p ≤ p + 2 ^ 10 := by
  obtain ⟨_, h2⟩ := sigShift_self p
  have hk : sigShift p p ≤ 10 := by
    by_contra hgt
    have hk11 : 11 ≤ sigShift p p := by omega
    have hq : 2 ^ 23 ≤ p / 2 ^ sigShift p p := h2 (by omega)
    have hpow : 2 ^ 11 ≤ 2 ^ sigShift p p := Nat.pow_le_pow_right (by decide) hk11
    have hmul : 2 ^ 23 * 2 ^ 11 ≤ p / 2 ^ sigShift p p * 2 ^ sigShift p p :=
      Nat.mul_le_mul hq hpow
    have hdm : p / 2 ^ sigShift p p * 2 ^ sigShift p p ≤ p := Nat.div_mul_le_self _ _
    have : (2 : Nat) ^ 23 * 2 ^ 11 = 2 ^ 34 := by norm_num
    omega
  have hpow : 2 ^ sigShift p p ≤ 2 ^ 10 := Nat.pow_le_pow_right (by decide) hk
  have := roundF32_upper p
  omega

theorem sensor_triggered_iff (s : Nat) : sensor_triggered s = true ↔ 1242 ≤ s := by
  unfold sensor_triggered voltage THRESHOLD_VOLTAGE ADC_CONVERSION_FACTOR
  rw [f32_3_3_eq, decide_eq_true_iff]
  constructor
  · intro h
    by_contra hlt
    have hs : s ≤ 1241 := by omega
    have hp : s * 13841203 < 2 ^ 34 := by
      have : s * 13841203 ≤ 1241 * 13841203 := Nat.mul_le_mul_right _ hs
      norm_num at this ⊢
      omega
    have h3 := roundF32_le_add _ hp
    have : s * 13841203 ≤ 1241 * 13841203 := Nat.mul_le_mul_right _ hs
    norm_num at h h3 this
    omega
  · intro h
    apply roundF32_ge_one
    have : 1242 * 13841203 ≤ s * 13841203 := Nat.mul_le_mul_right _ h
    norm_num at this ⊢
    omega

/-- Claim C1: for every 16-bit raw sample the classification of the main loop is true
exactly when `s * (3.3 / 4096) >= 1.0` holds in exact (rational) arithmetic, that is
exactly when `s >= 1242`; rounding to single precision does not move the cutoff. -/
theorem C1_classification_cutoff (s : Nat) (hs : s < 2 ^ 16) :
    (sensor_triggered s = true ↔ (1 : ℚ) ≤ (s : ℚ) * ((33 / 10) / 4096)) ∧
      (sensor_triggered s = true ↔ 1242 ≤ s) := by
  refine ⟨?_, sensor_triggered_iff s⟩
  rw [sensor_triggered_iff]
  have e : (s : ℚ) * ((33 / 10) / 4096) = (s : ℚ) * 33 / 40960 := by ring
  rw [e, le_div_iff₀ (by norm_num)]
  constructor
  · intro h
    have : (1242 : ℚ) ≤ (s : ℚ) := by exact_mod_cast h
    linarith
  · intro h
    by_contra hlt
    have hs2 : s ≤ 1241 := by omega
    have : (s : ℚ) ≤ 1241 := by exact_mod_cast hs2
    linarith

theorem C1_classification_cutoff_witness :
    (1242 < 2 ^ 16) ∧ (sensor_triggered 1242 = true ↔ 1242 ≤ 1242) ∧
      (1241 < 2 ^ 16) ∧ (sensor_triggered 1241 = true ↔ 1242 ≤ 1241) :=
  ⟨by decide, (C1_classification_cutoff 1242 (by decide)).2, by decide,
    (C1_classification_cutoff 1241 (by decide)).2⟩

/-! ## Lemmas on the notifier -/

theorem sent_bytes_append (a b : List Call) : sent_bytes (a ++ b) = sent_bytes a ++ sent_bytes b := by
  induction a with
  | nil => rfl
  | cons c rest ih => cases c <;> simp [sent_bytes, ih]

theorem send_count_append (a b : List Call) : send_count (a ++ b) = send_count a + send_count b := by
  induction a with
  | nil => simp [send_count]
  | cons c rest ih =>
    cases c <;> simp [send_count, ih]
    omega

theorem handler_sent (st : State) (p : Packet) : sent_bytes (rfcomm_packet_handler st p).2 = [] := by
  rcases p with (_ | _ | _ | _) | _ <;> simp [rfcomm_packet_handler, sent_bytes]
  split <;> simp [sent_bytes]

theorem handler_count (st : State) (p : Packet) : send_count (rfcomm_packet_handler st p).2 = 0 := by
  rcases p with (_ | _ | _ | _) | _ <;> simp [rfcomm_packet_handler, send_count]
  split <;> simp [send_count]

theorem handler_last (st : State) (p : Packet) :
    (rfcomm_packet_handler st p).1.last_sensor_state = st.last_sensor_state := by
  rcases p with (_ | _ | _ | _) | _ <;> simp [rfcomm_packet_handler]
  split <;> simp

theorem deliver_sent (st : State) (ps : List Packet) : sent_bytes (deliver st ps).2 = [] := by
  induction ps generalizing st with
  | nil => rfl
  | cons p rest ih => simp [deliver, sent_bytes_append, handler_sent, ih]

theorem deliver_count (st : State) (ps : List Packet) : send_count (deliver st ps).2 = 0 := by
  induction ps generalizing st with
  | nil => rfl
  | cons p rest ih => simp [deliver, send_count_append, handler_count, ih]

theorem deliver_last (st : State) (ps : List Packet) :
    (deliver st ps).1.last_sensor_state = st.last_sensor_state := by
  induction ps generalizing st with
  | nil => rfl
  | cons p rest ih => simp [deliver, ih, handler_last]

theorem poll_last (st : State) (a : Nat) :
    (poll_sensor st a).1.last_sensor_state = sensor_triggered a := by
  unfold poll_sensor
  by_cases h : sensor_triggered a = st.last_sensor_state <;> simp [h]

theorem loop_body_last (st : State) (t : Nat × List Packet) :
    (loop_body st t).1.last_sensor_state = sensor_triggered t.1 := by
  simp [loop_body, deliver_last, poll_last]

theorem loop_body_sent (st : State) (t : Nat × List Packet) :
    sent_bytes (loop_body st t).2 = sent_bytes (poll_sensor st t.1).2 := by
  simp [loop_body, sent_bytes_append, sent_bytes, deliver_sent]

theorem loop_body_count (st : State) (t : Nat × List Packet) :
    send_count (loop_body st t).2 = send_count (poll_sensor st t.1).2 := by
  simp [loop_body, send_count_append, send_count, deliver_count]

theorem handler_link (st : State) (p : Packet) (hl : link_up st = true)
    (hp : keeps_link p = true) : link_up (rfcomm_packet_handler st p).1 = true := by
  rcases p with (cid | ⟨status, cid⟩ | _ | _) | _ <;>
    simp_all [rfcomm_packet_handler, keeps_link, link_up]

theorem deliver_link (st : State) (ps : List Packet) (hl : link_up st = true)
    (hp : ∀ p ∈ ps, keeps_link p = true) : link_up (deliver st ps).1 = true := by
  induction ps generalizing st with
  | nil => exact hl
  | cons p rest ih =>
    simp only [deliver]
    exact ih _ (handler_link st p hl (hp p (List.mem_cons_self _ _)))
      (fun q hq => hp q (List.mem_cons_of_mem _ hq))

theorem poll_link (st : State) (a : Nat) : link_up (poll_sensor st a).1 = link_up st := by
  unfold poll_sensor
  by_cases h : sensor_triggered a = st.last_sensor_state <;> simp [h, link_up]

theorem poll_sent_link (st : State) (a : Nat) (hl : link_up st = true) :
    sent_bytes (poll_sensor st a).2 = edge_bytes st.last_sensor_state [sensor_triggered a] := by
  unfold link_up at hl
  unfold poll_sensor
  by_cases h : sensor_triggered a = st.last_sensor_state
  · simp [h, sent_bytes, edge_bytes]
  · simp [h, sent_bytes, edge_bytes, send_sensor_data, hl]

theorem edge_bytes_cons (prev c : Bool) (cs : List Bool) :
    edge_bytes prev (c :: cs) = edge_bytes prev [c] ++ edge_bytes c cs := by
  by_cases h : c = prev <;> simp [edge_bytes, h]

theorem main_loop_sent_link (ticks : List (Nat × List Packet)) : ∀ st : State,
    link_up st = true → (∀ t ∈ ticks, ∀ p ∈ t.2, keeps_link p = true) →
      sent_bytes (main_loop st ticks).2 = edge_bytes st.last_sensor_state (classes ticks) := by
  induction ticks with
  | nil => intro st _ _; rfl
  | cons t rest ih =>
    intro st hl hp
    have hl1 : link_up (loop_body st t).1 = true := by
      simp only [loop_body]
      exact deliver_link _ _ (by rw [poll_link]; exact hl) (hp t (List.mem_cons_self _ _))
    have h := ih (loop_body st t).1 hl1 (fun u hu => hp u (List.mem_cons_of_mem _ hu))
    simp only [main_loop, sent_bytes_append, h, loop_body_sent, loop_body_last,
      poll_sent_link st t.1 hl, classes, List.map_cons]
    exact (edge_bytes_cons _ _ _).symm

theorem getD_cons_eq (c : Bool) (cs : List Bool) (i : Nat) :
    (c :: cs).getD i false = if i = 0 then c else cs.getD (i - 1) false := by
  cases i with
  | zero => rfl
  | succ n => simp only [List.getD_cons_succ, Nat.succ_ne_zero, if_false, Nat.succ_sub_one]

theorem indexed_eq_edge_bytes (cs : List Bool) : ∀ prev : Bool,
    ((List.range cs.length).filter
        (fun i => cs.getD i false != (if i = 0 then prev else cs.getD (i - 1) false))).map
      (fun i => if cs.getD i false then 1 else 0) = edge_bytes prev cs := by
  induction cs with
  | nil => intro prev; rfl
  | cons c cs ih =>
    intro prev
    rw [List.length_cons, List.range_succ_eq_map, List.filter_cons]
    have hrest : ((List.map Nat.succ (List.range cs.length)).filter
        (fun i => (c :: cs).getD i false !=
          (if i = 0 then prev else (c :: cs).getD (i - 1) false))).map
        (fun i => if (c :: cs).getD i false then 1 else 0) = edge_bytes c cs := by
      rw [← ih c, List.filter_map, List.map_map]
      congr 1
      apply List.filter_congr
      intro i _
      simp only [Function.comp_apply, List.getD_cons_succ, Nat.succ_ne_zero, if_false,
        Nat.succ_sub_one]
      rw [getD_cons_eq]
    by_cases h : c = prev
    · subst h
      simp only [List.getD_cons_zero, if_true, bne_self_eq_false, Bool.false_eq_true,
        if_false, edge_bytes]
      exact hrest
    · have hne : (c != prev) = true := by simpa using h
      simp only [List.getD_cons_zero, if_true, hne, List.map_cons, edge_bytes]
      rw [hrest]

theorem expected_bytes_eq (cs : List Bool) : expected_bytes cs = edge_bytes false cs := by
  unfold expected_bytes change_indices prev_class
  exact indexed_eq_edge_bytes cs false

/-- Claim C2: with the link usable throughout the run (flag true and channel id non-zero
at the start, and only packets that keep it so) and `last_sensor_state` initially
false, the bytes handed to `rfcomm_send` by the polling loop are, in order, one byte
(1 for true, 0 for false) for each tick whose classification differs from that of the
tick before, the classification before the first tick being false. -/
theorem C2_bytes_are_the_changes (st : State) (ticks : List (Nat × List Packet))
    (hconn : st.bluetooth_connected = true) (hcid : st.rfcomm_channel_id ≠ 0)
    (hlast : st.last_sensor_state = false)
    (hkeep : ∀ t ∈ ticks, ∀ p ∈ t.2, keeps_link p = true) :
    sent_bytes (main_loop st ticks).2 = expected_bytes (classes ticks) := by
  have hl : link_up st = true := by simp [link_up, hconn, hcid]
  rw [main_loop_sent_link ticks st hl hkeep, hlast, expected_bytes_eq]

theorem C2_bytes_are_the_changes_witness :
    classes [(621, []), (1489, []), (1489, [.other_packet]), (372, [])]
        = [false, true, true, false] ∧
      sent_bytes (main_loop ⟨5, true, false⟩
        [(621, []), (1489, []), (1489, [.other_packet]), (372, [])]).2 = [1, 0] :=
  ⟨by decide,
    (C2_bytes_are_the_changes ⟨5, true, false⟩
      [(621, []), (1489, []), (1489, [.other_packet]), (372, [])]
      rfl (by decide) rfl (by decide)).trans (by decide)⟩

theorem send_sensor_data_down (st : State) (b : Bool) (h : link_up st = false) :
    send_sensor_data st b = [] := by
  unfold link_up at h
  simp [send_sensor_data, h]

theorem poll_sent_down (st : State) (a : Nat) (h : link_up st = false) :
    sent_bytes (poll_sensor st a).2 = [] ∧ send_count (poll_sensor st a).2 = 0 := by
  unfold poll_sensor
  by_cases hc : sensor_triggered a = st.last_sensor_state <;>
    simp [hc, sent_bytes, send_count, send_sensor_data_down st _ h]

theorem link_down_of_flag (st : State) (h : st.bluetooth_connected = false) :
    link_up st = false := by
  simp [link_up, h]

/-- Claim C3: on a polling tick that starts with `bluetooth_connected` false, nothing is
handed to `rfcomm_send`, whatever the sample, the stored channel id and the packets
dispatched later in the same pass; `send_sensor_data` itself makes no call at all. -/
theorem C3_no_send_while_flag_false (st : State) (adc_raw : Nat) (pkts : List Packet)
    (h : st.bluetooth_connected = false) :
    (∀ b, send_sensor_data st b = []) ∧
      sent_bytes (loop_body st (adc_raw, pkts)).2 = [] ∧
      send_count (loop_body st (adc_raw, pkts)).2 = 0 := by
  have hl := link_down_of_flag st h
  refine ⟨fun b => send_sensor_data_down st b hl, ?_, ?_⟩
  · rw [loop_body_sent]
    exact (poll_sent_down st adc_raw hl).1
  · rw [loop_body_count]
    exact (poll_sent_down st adc_raw hl).2

theorem C3_no_send_while_flag_false_witness :
    sent_bytes (loop_body ⟨7, false, false⟩ (4095, [.hci_event (.channel_opened 0 7)])).2 = [] :=
  (C3_no_send_while_flag_false ⟨7, false, false⟩ 4095 [.hci_event (.channel_opened 0 7)] rfl).2.1

theorem handler_flag (st : State) (p : Packet)
    (h : (rfcomm_packet_handler st p).1.bluetooth_connected = true) :
    st.bluetooth_connected = true ∨ is_open_ok p = true := by
  rcases p with (cid | ⟨status, cid⟩ | _ | _) | _ <;>
    simp_all [rfcomm_packet_handler, is_open_ok]
  by_cases hs : status = 0 <;> simp_all

theorem handler_flag_false (st : State) (p : Packet) (h : st.bluetooth_connected = false)
    (hp : is_open_ok p = false) : (rfcomm_packet_handler st p).1.bluetooth_connected = false := by
  cases hb : (rfcomm_packet_handler st p).1.bluetooth_connected with
  | false => rfl
  | true =>
    rcases handler_flag st p hb with h1 | h1
    · rw [h] at h1; cases h1
    · rw [hp] at h1; cases h1

theorem deliver_flag_false (st : State) (ps : List Packet) (h : st.bluetooth_connected = false)
    (hp : ∀ p ∈ ps, is_open_ok p = false) : (deliver st ps).1.bluetooth_connected = false := by
  induction ps generalizing st with
  | nil => exact h
  | cons p rest ih =>
    simp only [deliver]
    exact ih _ (handler_flag_false st p h (hp p (List.mem_cons_self _ _)))
      (fun q hq => hp q (List.mem_cons_of_mem _ hq))

theorem poll_flag (st : State) (a : Nat) :
    (poll_sensor st a).1.bluetooth_connected = st.bluetooth_connected := by
  unfold poll_sensor
  by_cases h : sensor_triggered a = st.last_sensor_state <;> simp [h]

theorem main_loop_silent (ticks : List (Nat × List Packet)) : ∀ st : State,
    st.bluetooth_connected = false → (∀ t ∈ ticks, ∀ p ∈ t.2, is_open_ok p = false) →
      sent_bytes (main_loop st ticks).2 = [] ∧ send_count (main_loop st ticks).2 = 0 := by
  induction ticks with
  | nil => intro st _ _; exact ⟨rfl, rfl⟩
  | cons t rest ih =>
    intro st h hp
    have h1 : (loop_body st t).1.bluetooth_connected = false := by
      simp only [loop_body]
      exact deliver_flag_false _ _ (by rw [poll_flag]; exact h) (hp t (List.mem_cons_self _ _))
    obtain ⟨e1, e2⟩ := ih (loop_body st t).1 h1 (fun u hu => hp u (List.mem_cons_of_mem _ hu))
    obtain ⟨d1, d2⟩ := poll_sent_down st t.1 (link_down_of_flag st h)
    constructor
    · simp only [main_loop, sent_bytes_append, e1, loop_body_sent, d1, List.append_nil]
    · simp only [main_loop, send_count_append, e2, loop_body_count, d2]

/-- Claim C4: once `RFCOMM_EVENT_CHANNEL_CLOSED` has been handled, whatever packets
follow in the same pass and in later passes, no byte is handed to `rfcomm_send` as long
as none of them is a channel-opened event with status 0; and that event is the only
one that can turn the connected flag from false to true. -/
theorem C4_silent_after_close (st : State) (rest : List Packet)
    (ticks : List (Nat × List Packet))
    (hrest : ∀ p ∈ rest, is_open_ok p = false)
    (hticks : ∀ t ∈ ticks, ∀ p ∈ t.2, is_open_ok p = false) :
    sent_bytes (main_loop
        (deliver (rfcomm_packet_handler st (.hci_event .channel_closed)).1 rest).1 ticks).2 = [] ∧
      send_count (main_loop
        (deliver (rfcomm_packet_handler st (.hci_event .channel_closed)).1 rest).1 ticks).2 = 0 ∧
      (∀ (st0 : State) (p : Packet),
        (rfcomm_packet_handler st0 p).1.bluetooth_connected = true →
          st0.bluetooth_connected = true ∨ is_open_ok p = true) := by
  have h0 : (rfcomm_packet_handler st (.hci_event .channel_closed)).1.bluetooth_connected
      = false := rfl
  have h1 := deliver_flag_false _ rest h0 hrest
  obtain ⟨e1, e2⟩ := main_loop_silent ticks _ h1 hticks
  exact ⟨e1, e2, handler_flag⟩

theorem C4_silent_after_close_witness :
    sent_bytes (main_loop
      (deliver (rfcomm_packet_handler ⟨5, true, false⟩ (.hci_event .channel_closed)).1
        [.hci_event (.incoming_connection 9)]).1
      [(4095, [.hci_event (.channel_opened 3 9)]), (0, []), (4095, [])]).2 = [] :=
  (C4_silent_after_close ⟨5, true, false⟩ [.hci_event (.incoming_connection 9)]
    [(4095, [.hci_event (.channel_opened 3 9)]), (0, []), (4095, [])]
    (by decide) (by decide)).1

theorem poll_count_le (st : State) (a : Nat) :
    send_count (poll_sensor st a).2 ≤ (edge_bytes st.last_sensor_state [sensor_triggered a]).length := by
  unfold poll_sensor
  by_cases h : sensor_triggered a = st.last_sensor_state
  · simp [h, send_count, edge_bytes]
  · by_cases hl : link_up st = true
    · unfold link_up at hl
      simp [h, send_count, edge_bytes, send_sensor_data, hl]
    · have hl2 : link_up st = false := by simpa using hl
      simp [h, send_count, edge_bytes, send_sensor_data_down st _ hl2]

theorem edge_bytes_single_length (prev c : Bool) :
    (edge_bytes prev [c]).length = if c = prev then 0 else 1 := by
  by_cases h : c = prev <;> simp [edge_bytes, h]

theorem main_loop_count_le (ticks : List (Nat × List Packet)) : ∀ st : State,
    send_count (main_loop st ticks).2
      ≤ (edge_bytes st.last_sensor_state (classes ticks)).length := by
  induction ticks with
  | nil => intro st; exact Nat.le_refl _
  | cons t rest ih =>
    intro st
    have h := ih (loop_body st t).1
    rw [loop_body_last] at h
    have hp := poll_count_le st t.1
    simp only [main_loop, send_count_append, loop_body_count, classes, List.map_cons]
    rw [edge_bytes_cons, List.length_append]
    exact Nat.add_le_add hp h

theorem main_loop_last (ticks : List (Nat × List Packet)) : ∀ st : State,
    (main_loop st ticks).1.last_sensor_state
      = ((classes ticks).getLast?).getD st.last_sensor_state := by
  induction ticks with
  | nil => intro st; rfl
  | cons t rest ih =>
    intro st
    simp only [main_loop]
    rw [ih, loop_body_last]
    cases rest with
    | nil => rfl
    | cons u more =>
      simp only [classes, List.map_cons, List.getLast?_cons_cons]
      rw [List.getLast?_eq_getLast _ (List.cons_ne_nil _ _)]
      simp only [Option.getD_some]

theorem poll_bytes_eq_count (st : State) (a : Nat) :
    (sent_bytes (poll_sensor st a).2).length = send_count (poll_sensor st a).2 := by
  unfold poll_sensor send_sensor_data
  by_cases h : sensor_triggered a = st.last_sensor_state
  · simp [h, send_count, sent_bytes]
  · by_cases hl : (st.bluetooth_connected && (st.rfcomm_channel_id != 0)) = true
    · simp [h, send_count, sent_bytes, hl]
    · simp [h, send_count, sent_bytes, hl]

/-- Claim C5: whatever the radio events, a polling tick hands at most one byte to
`rfcomm_send` (in at most one call), and hands one only if its classification differs
from that of the tick before (from false on the first tick); the number of
transmissions of a run is at most the number of classification changes. -/
theorem C5_at_most_one_send_per_change (st : State) (ticks : List (Nat × List Packet))
    (tick : Nat × List Packet) (hlast : st.last_sensor_state = false) :
    (sent_bytes (loop_body (main_loop st ticks).1 tick).2).length
        = send_count (loop_body (main_loop st ticks).1 tick).2 ∧
      send_count (loop_body (main_loop st ticks).1 tick).2 ≤ 1 ∧
      (send_count (loop_body (main_loop st ticks).1 tick).2 ≠ 0 →
        sensor_triggered tick.1 ≠ ((classes ticks).getLast?).getD false) ∧
      send_count (main_loop st ticks).2 ≤ (change_indices (classes ticks)).length := by
  have hp := poll_count_le (main_loop st ticks).1 tick.1
  rw [edge_bytes_single_length, main_loop_last, hlast] at hp
  refine ⟨?_, ?_, ?_, ?_⟩
  · rw [loop_body_count, loop_body_sent]
    exact poll_bytes_eq_count _ _
  · rw [loop_body_count]
    split at hp <;> omega
  · rw [loop_body_count]
    intro hne heq
    rw [if_pos heq] at hp
    omega
  · have h := main_loop_count_le ticks st
    rw [hlast, ← expected_bytes_eq] at h
    simpa [expected_bytes] using h

theorem C5_at_most_one_send_per_change_witness :
    send_count (loop_body (main_loop ⟨5, true, false⟩
        [(4095, [.hci_event .channel_closed]), (0, [.hci_event (.channel_opened 0 6)])]).1
        (4095, [])).2 ≤ 1 ∧
      send_count (main_loop ⟨5, true, false⟩
        [(4095, [.hci_event .channel_closed]), (0, [.hci_event (.channel_opened 0 6)])]).2
        ≤ (change_indices (classes
          [(4095, [.hci_event .channel_closed]), (0, [.hci_event (.channel_opened 0 6)])])).length :=
  ⟨(C5_at_most_one_send_per_change ⟨5, true, false⟩
      [(4095, [.hci_event .channel_closed]), (0, [.hci_event (.channel_opened 0 6)])]
      (4095, []) rfl).2.1,
    (C5_at_most_one_send_per_change ⟨5, true, false⟩
      [(4095, [.hci_event .channel_closed]), (0, [.hci_event (.channel_opened 0 6)])]
      (4095, []) rfl).2.2.2⟩

theorem poll_same (st : State) (a : Nat) (h : sensor_triggered a = st.last_sensor_state) :
    poll_sensor st a = (st, [.adc_read]) := by
  simp [poll_sensor, h]

theorem main_loop_same_class (c : Bool) (ticks : List (Nat × List Packet)) : ∀ st : State,
    st.last_sensor_state = c → (∀ t ∈ ticks, sensor_triggered t.1 = c) →
      sent_bytes (main_loop st ticks).2 = [] := by
  induction ticks with
  | nil => intro st _ _; rfl
  | cons t rest ih =>
    intro st hst hc
    have ht : sensor_triggered t.1 = st.last_sensor_state := by
      rw [hst]; exact hc t (List.mem_cons_self _ _)
    have h1 : (loop_body st t).1.last_sensor_state = c := by
      rw [loop_body_last]; exact hc t (List.mem_cons_self _ _)
    have h2 := ih (loop_body st t).1 h1 (fun u hu => hc u (List.mem_cons_of_mem _ hu))
    simp only [main_loop, sent_bytes_append, h2, loop_body_sent, poll_same st t.1 ht,
      sent_bytes, List.append_nil]

/-- Claim C9: on a tick whose classification differs from `last_sensor_state` while the
link is not usable (flag false or channel id 0) no byte is sent and `last_sensor_state`
still takes the new classification; after every pass `last_sensor_state` is the
classification of the sample just read; and in any continuation whose samples keep
that classification no byte is ever sent, whatever packets arrive (a later successful
open included). -/
theorem C9_change_while_down_is_lost (st : State) (adc_raw : Nat) (pkts : List Packet) :
    (link_up st = false → sensor_triggered adc_raw ≠ st.last_sensor_state →
        sent_bytes (loop_body st (adc_raw, pkts)).2 = [] ∧
          (poll_sensor st adc_raw).1.last_sensor_state = sensor_triggered adc_raw) ∧
      (loop_body st (adc_raw, pkts)).1.last_sensor_state = sensor_triggered adc_raw ∧
      (∀ ticks : List (Nat × List Packet),
        (∀ t ∈ ticks, sensor_triggered t.1 = sensor_triggered adc_raw) →
          sent_bytes (main_loop (loop_body st (adc_raw, pkts)).1 ticks).2 = []) := by
  refine ⟨fun hl _ => ⟨?_, poll_last st adc_raw⟩, loop_body_last st (adc_raw, pkts), ?_⟩
  · rw [loop_body_sent]
    exact (poll_sent_down st adc_raw hl).1
  · intro ticks hc
    exact main_loop_same_class _ ticks _ (loop_body_last st (adc_raw, pkts)) hc

theorem C9_change_while_down_is_lost_witness :
    sent_bytes (loop_body ⟨0, false, false⟩ (4095, [.hci_event (.channel_opened 0 6)])).2 = [] ∧
      (loop_body ⟨0, false, false⟩ (4095, [.hci_event (.channel_opened 0 6)])).1
        = ⟨6, true, true⟩ ∧
      sent_bytes (main_loop
        (loop_body ⟨0, false, false⟩ (4095, [.hci_event (.channel_opened 0 6)])).1
        [(4000, []), (3000, [])]).2 = [] :=
  ⟨((C9_change_while_down_is_lost ⟨0, false, false⟩ 4095
      [.hci_event (.channel_opened 0 6)]).1 rfl (by decide)).1,
    by decide,
    (C9_change_while_down_is_lost ⟨0, false, false⟩ 4095
      [.hci_event (.channel_opened 0 6)]).2.2 [(4000, []), (3000, [])] (by decide)⟩

/-- Claim C10: whatever the state, handling `RFCOMM_EVENT_INCOMING_CONNECTION` calls
`rfcomm_accept_connection` exactly once, with the channel id of the event; that id
replaces the stored `rfcomm_channel_id`, and is the id a following `send_sensor_data`
passes to `rfcomm_send`; `bluetooth_connected` and `last_sensor_state` keep their
values. -/
theorem C10_incoming_connection_accepted (st : State) (cid : Nat) :
    accepted (rfcomm_packet_handler st (.hci_event (.incoming_connection cid))).2 = [cid] ∧
      (rfcomm_packet_handler st (.hci_event (.incoming_connection cid))).1
        = { rfcomm_channel_id := cid, bluetooth_connected := st.bluetooth_connected,
            last_sensor_state := st.last_sensor_state } ∧
      (∀ b : Bool,
        sends (send_sensor_data
            (rfcomm_packet_handler st (.hci_event (.incoming_connection cid))).1 b)
          = if st.bluetooth_connected && (cid != 0) then [(cid, [if b then 1 else 0])]
            else []) := by
  refine ⟨rfl, rfl, fun b => ?_⟩
  simp only [rfcomm_packet_handler, send_sensor_data]
  split <;> rfl

/-- Claim C6, as the code has it: a channel-opened event with a failure status clears
the channel id but leaves `bluetooth_connected` as it was. From the initial state, an
accepted and opened channel 5 followed by a second request whose open fails leaves
the flag true with channel id 0; a further incoming-connection event then stores
channel id 7, and the next classification change is sent on it although no
channel-opened event with status 0 has been handled since the failure. -/
theorem C6_failed_open_keeps_flag :
    (main_loop State.initial
        [(0, [.hci_event (.incoming_connection 5), .hci_event (.channel_opened 0 5),
              .hci_event (.incoming_connection 9), .hci_event (.channel_opened 1 9)])]).1
        = ⟨0, true, false⟩ ∧
      (rfcomm_packet_handler ⟨9, true, false⟩ (.hci_event (.channel_opened 1 9))).1
        = ⟨0, true, false⟩ ∧
      sends (main_loop ⟨0, true, false⟩
        [(0, [.hci_event (.incoming_connection 7)]), (4095, [])]).2 = [(7, [1])] := by
  decide

/-- Claim C7: when `cyw43_arch_init()` returns non-zero, `main` prints the diagnostic and
returns -1, having made no other call (no ADC or Bluetooth set-up, no handler
registration, no `adc_read`, no `rfcomm_send`), whatever the loop would have been fed;
when it returns 0, `main` does not return, completes the set-up and runs the polling
loop from the initial state. -/
theorem C7_radio_init_failure_is_fatal (rc : Int) (ticks : List (Nat × List Packet)) :
    (rc ≠ 0 →
        main rc ticks = (some (-1),
          [.stdio_init_all, .printf "Pico W Bluetooth Sensor Starting...\n",
            .cyw43_arch_init, .printf "Failed to initialize cyw43_arch\n"]) ∧
          sends (main rc ticks).2 = [] ∧ Call.adc_read ∉ (main rc ticks).2) ∧
      (rc = 0 →
        (main rc ticks).1 = none ∧
          (main rc ticks).2 = (main rc []).2 ++ (main_loop State.initial ticks).2 ∧
          (main rc []).2 =
            [.stdio_init_all, .printf "Pico W Bluetooth Sensor Starting...\n",
              .cyw43_arch_init, .adc_init, .adc_gpio_init 26, .adc_select_input 0,
              .printf "Initializing Bluetooth...\n", .l2cap_init, .rfcomm_init,
              .hci_add_event_handler, .rfcomm_register_service 1 65535,
              .hci_power_control_on,
              .printf "Bluetooth initialized. Device name: PicoW-Sensor\n",
              .printf "Threshold voltage: %.2fV\n"] ∧
          (ticks ≠ [] → Call.adc_read ∈ (main rc ticks).2)) := by
  constructor
  · intro h
    have e : main rc ticks = (some (-1),
        [.stdio_init_all, .printf "Pico W Bluetooth Sensor Starting...\n",
          .cyw43_arch_init, .printf "Failed to initialize cyw43_arch\n"]) := by
      simp [main, h]
    rw [e]
    exact ⟨rfl, rfl, by decide⟩
  · intro h
    subst h
    refine ⟨rfl, ?_, rfl, ?_⟩
    · simp [main, main_loop]
    · intro hne
      cases ticks with
      | nil => exact absurd rfl hne
      | cons t rest =>
        have hm : Call.adc_read ∈ (poll_sensor State.initial t.1).2 := by
          unfold poll_sensor
          by_cases hc : sensor_triggered t.1 = State.initial.last_sensor_state <;> simp [hc]
        simp only [main, main_loop, loop_body]
        simp [hm]

theorem C7_radio_init_failure_is_fatal_witness :
    (main (-1) [(4095, [])]).1 = some (-1) ∧ sends (main (-1) [(4095, [])]).2 = [] ∧
      (main 0 [(4095, [])]).1 = none ∧ Call.adc_read ∈ (main 0 [(4095, [])]).2 :=
  ⟨congrArg Prod.fst ((C7_radio_init_failure_is_fatal (-1) [(4095, [])]).1 (by decide)).1,
    ((C7_radio_init_failure_is_fatal (-1) [(4095, [])]).1 (by decide)).2.1,
    ((C7_radio_init_failure_is_fatal 0 [(4095, [])]).2 rfl).1,
    ((C7_radio_init_failure_is_fatal 0 [(4095, [])]).2 rfl).2.2.2 (by decide)⟩

end PicoSensor

namespace Blink

theorem loop_succ_end (n : Nat) : loop (n + 1) = loop n ++ pass_calls := by
  induction n with
  | zero => rfl
  | succ k ih =>
    show pass_calls ++ loop (k + 1) = (pass_calls ++ loop k) ++ pass_calls
    rw [ih, List.append_assoc]

theorem pin_writes_append (a b : List PinCall) : ∀ t : Nat,
    pin_writes t (a ++ b) = pin_writes t a ++ pin_writes (t + total_sleep a) b := by
  induction a with
  | nil => intro t; rfl
  | cons c rest ih =>
    intro t
    cases c <;> simp [pin_writes, total_sleep, ih, Nat.add_assoc]

theorem total_sleep_append (a b : List PinCall) :
    total_sleep (a ++ b) = total_sleep a + total_sleep b := by
  induction a with
  | nil => simp [total_sleep]
  | cons c rest ih => cases c <;> simp [total_sleep, ih, Nat.add_assoc]

theorem total_sleep_loop (n : Nat) : total_sleep (loop n) = 1000 * n := by
  induction n with
  | zero => rfl
  | succ k ih =>
    rw [loop_succ_end, total_sleep_append, ih]
    simp [pass_calls, total_sleep]
    omega

theorem expected_level_even (n : Nat) : expected_level (2 * n) = 1 := by
  simp [expected_level]

theorem expected_level_odd (n : Nat) : expected_level (2 * n + 1) = 0 := by
  have h : (2 * n + 1) % 2 = 1 := by omega
  simp [expected_level, h]

theorem loop_calls (n : Nat) :
    loop n = (List.range (2 * n)).flatMap
      (fun i => [.gpio_put LED_PIN (expected_level i), .sleep_ms 500]) := by
  induction n with
  | zero => rfl
  | succ k ih =>
    have e : 2 * (k + 1) = (2 * k + 1) + 1 := by omega
    rw [loop_succ_end, e, List.range_succ, List.range_succ, List.flatMap_append,
      List.flatMap_append, ← ih]
    simp [pass_calls, expected_level_even, expected_level_odd]

theorem loop_writes (n : Nat) :
    pin_writes 0 (loop n) = (List.range (2 * n)).map (fun i => (500 * i, expected_level i)) := by
  induction n with
  | zero => rfl
  | succ k ih =>
    have e : 2 * (k + 1) = (2 * k + 1) + 1 := by omega
    rw [loop_succ_end, pin_writes_append, ih, total_sleep_loop, e, List.range_succ,
      List.range_succ, List.map_append, List.map_append]
    simp [pass_calls, pin_writes, expected_level_even, expected_level_odd]
    omega

/-- Claim C8: for every number of passes, the calls of the blink loop are, write after
write, `gpio_put` of level 1 for an even write number and 0 for an odd one, each followed
by exactly one `sleep_ms(500)`; counting time as the sum of the sleeps, write `n` is made
at `500 * n` ms, so the first write (level 1) is at 0 ms and the first write of level 0
at 500 ms. -/
theorem C8_blink_alternates (LED_BUILTIN n : Nat) :
    main LED_BUILTIN n = [.gpio_init LED_BUILTIN, .gpio_set_dir LED_BUILTIN true] ++
        (List.range (2 * n)).flatMap
          (fun i => [.gpio_put 25 (if i % 2 = 0 then 1 else 0), .sleep_ms 500]) ∧
      pin_writes 0 (main LED_BUILTIN n)
        = (List.range (2 * n)).map (fun i => (500 * i, if i % 2 = 0 then 1 else 0)) := by
  constructor
  · simp only [main, loop_calls]
    rfl
  · have e : pin_writes 0 (main LED_BUILTIN n) = pin_writes 0 (loop n) := rfl
    rw [e, loop_writes]
    rfl

end Blink
